import Mathlib

/-!
Shallow embedding of `src/divertscan_quickbooks_export.js` (the DivertScan
QuickBooks export module) and proofs about its specification claims.

JavaScript numbers are modelled as `JSNum` (a rational or NaN); JavaScript
values reaching this module are modelled as `JSVal` (undefined, null,
string, or number). Raw records are modelled as property maps
`String → JSVal`, absent properties being `undefined`. Stateful and
asynchronous behaviour of the load resolver is modelled by an explicit
environment `Env` describing the outcome of the IndexedDB and API queries.
-/

namespace DivertScanQB

/-! ## Decimal digit and number rendering helpers -/

/-- Decimal digit character for a digit value 0-9 (any other value is
never produced by the callers, which always pass reduced digits). -/
def digitChar : ℕ → Char
  | 0 => '0'
  | 1 => '1'
  | 2 => '2'
  | 3 => '3'
  | 4 => '4'
  | 5 => '5'
  | 6 => '6'
  | 7 => '7'
  | 8 => '8'
  | 9 => '9'
  | _ => '0'

/-- Big-endian decimal digits of `n`, driven by fuel so that the
definition is structural (the fuel `n + 1` always suffices). -/
def natDecCore : ℕ → ℕ → List Char
  | 0, _ => []
  | fuel + 1, n =>
    if n < 10 then [digitChar n]
    else natDecCore fuel (n / 10) ++ [digitChar (n % 10)]

/-- Decimal rendering of a natural number, as JS `String(n)`. -/
def natDec (n : ℕ) : String := String.mk (natDecCore (n + 1) n)

/-- Decimal rendering of an integer, as JS `String(i)`. -/
def intDec (i : ℤ) : String :=
  if i < 0 then "-" ++ natDec i.natAbs else natDec i.toNat

/-- Fractional decimal digits of `0 ≤ r < 1`, up to `fuel` digits
(terminating decimals of the module's data need far fewer than the 20
digits of fuel the callers pass). -/
def fracDigits : ℕ → ℚ → List Char
  | 0, _ => []
  | fuel + 1, r =>
    if r = 0 then []
    else digitChar (Int.toNat ⌊r * 10⌋) :: fracDigits fuel (r * 10 - ⌊r * 10⌋)

/-- Decimal rendering of a rational, as JS `String(x)` renders the
corresponding double when its decimal expansion terminates (shortest
round-trip printing of inexact doubles is not modelled). -/
def qDec (q : ℚ) : String :=
  let ds := fracDigits 20 (|q| - ⌊|q|⌋)
  (if q < 0 then "-" else "") ++ natDec (Int.toNat ⌊|q|⌋) ++
    (if ds = [] then "" else "." ++ String.mk ds)

/-- Left-pad with zeros to a target length, as JS `padStart(t, '0')`. -/
def padStartZeros (t : ℕ) (s : String) : String :=
  String.mk (List.replicate (t - s.length) '0' ++ s.data)

/-- Numeric value of `x` rounded to `d` decimal places with ties away
from zero, which is the value printed by JS `x.toFixed(d)`. -/
def toFixedQ (d : ℕ) (x : ℚ) : ℚ :=
  if x < 0 then -((⌊|x| * 10 ^ d + 1 / 2⌋ : ℚ) / 10 ^ d)
  else (⌊|x| * 10 ^ d + 1 / 2⌋ : ℚ) / 10 ^ d

/-- String produced by JS `x.toFixed(d)`: round half away from zero to
`d` decimals, render with exactly `d` fractional digits. -/
def qToFixedString (d : ℕ) (x : ℚ) : String :=
  let n : ℕ := (⌊|x| * 10 ^ d + 1 / 2⌋).toNat
  let core := natDec (n / 10 ^ d) ++
    (if d = 0 then "" else "." ++ padStartZeros d (natDec (n % 10 ^ d)))
  if x < 0 then "-" ++ core else core

/-! ## JavaScript value model -/

/-- A JS number: NaN or a rational (finite doubles; infinities do not
arise in this module). -/
inductive JSNum where
  | nan : JSNum
  | val : ℚ → JSNum
deriving DecidableEq

/-- A JS value as it reaches this module: undefined, null, a string, or
a number. -/
inductive JSVal where
  | undefined : JSVal
  | null : JSVal
  | str : String → JSVal
  | num : JSNum → JSVal
deriving DecidableEq

/-- JS truthiness of a value. -/
def JSVal.truthy : JSVal → Bool
  | .undefined => false
  | .null => false
  | .str s => s ≠ ""
  | .num .nan => false
  | .num (.val q) => q ≠ 0

/-- JS `a || b`. -/
def jsOr (a b : JSVal) : JSVal := if a.truthy then a else b

/-- JS ToString for the values this module handles. -/
def jsToString : JSVal → String
  | .undefined => "undefined"
  | .null => "null"
  | .str s => s
  | .num .nan => "NaN"
  | .num (.val q) => qDec q

/-- Whitespace characters recognised by JS `trim` and the regex class
`\s` (the ASCII ones; the module's data contains no exotic spaces). -/
def jsIsWhite (c : Char) : Bool :=
  c = ' ' ∨ c = '\t' ∨ c = '\n' ∨ c = '\r' ∨ c = '\x0b' ∨ c = '\x0c'

/-- JS `String.prototype.trim`. -/
def jsTrim (s : String) : String :=
  String.mk (((s.data.dropWhile jsIsWhite).reverse.dropWhile jsIsWhite).reverse)

/-- Longest prefix of decimal digits and the remaining characters. -/
def takeDigits : List Char → List Char × List Char
  | [] => ([], [])
  | c :: cs =>
    if c.isDigit then
      let p := takeDigits cs
      (c :: p.1, p.2)
    else ([], c :: cs)

/-- Natural number denoted by a list of decimal digit characters. -/
def digitsToNat (ds : List Char) : ℕ :=
  ds.foldl (fun a c => a * 10 + (c.toNat - 48)) 0

/-- Models the JS `parseFloat` builtin on the string shapes this module
can see: optional leading whitespace, an optional sign, then digits with
an optional fractional part; anything else yields NaN. (Exponents and
`Infinity`, which the module's data never contains, are not modelled.) -/
def parseFloatStr (s : String) : JSNum :=
  let cs := s.data.dropWhile jsIsWhite
  let signed : ℚ × List Char :=
    match cs with
    | '-' :: r => (-1, r)
    | '+' :: r => (1, r)
    | r => (1, r)
  let ip := takeDigits signed.2
  match ip.2 with
  | '.' :: r2 =>
    let fp := takeDigits r2
    if ip.1 = [] ∧ fp.1 = [] then .nan
    else .val (signed.1 * ((digitsToNat ip.1 : ℚ) +
      (digitsToNat fp.1 : ℚ) / 10 ^ fp.1.length))
  | _ =>
    if ip.1 = [] then .nan else .val (signed.1 * (digitsToNat ip.1 : ℚ))

/-- JS `parseFloat(v)`: the argument is coerced to a string first; a
number therefore parses back to itself (NaN prints as "NaN", which does
not parse). -/
def jsParseFloat : JSVal → JSNum
  | .str s => parseFloatStr s
  | .num n => n
  | _ => .nan

/-! ## Calendar dates -/

/-- A calendar date as seen through the local getters of a valid JS
`Date` (month is 1-12, i.e. `getMonth() + 1`). The execution locale is
taken to be UTC, so ISO strings read back unshifted. -/
structure YMD where
  year : ℕ
  month : ℕ
  day : ℕ
deriving DecidableEq

def isLeapYear (y : ℕ) : Bool := (y % 4 = 0 ∧ y % 100 ≠ 0) ∨ y % 400 = 0

def daysInMonth (y m : ℕ) : ℕ :=
  if m = 2 then (if isLeapYear y then 29 else 28)
  else if m = 4 ∨ m = 6 ∨ m = 9 ∨ m = 11 then 30
  else 31

/-- Parses the ISO shapes `YYYY-MM-DD` and `YYYY-MM-DDT...` accepted by
the JS `Date` constructor, validating the calendar ranges as it does. -/
def parseIsoDate (s : String) : Option YMD :=
  match s.data with
  | y1 :: y2 :: y3 :: y4 :: '-' :: m1 :: m2 :: '-' :: d1 :: d2 :: rest =>
    if (y1.isDigit ∧ y2.isDigit ∧ y3.isDigit ∧ y4.isDigit ∧
        m1.isDigit ∧ m2.isDigit ∧ d1.isDigit ∧ d2.isDigit) ∧
        (rest = [] ∨ rest.head? = some 'T') then
      let y := digitsToNat [y1, y2, y3, y4]
      let mo := digitsToNat [m1, m2]
      let dy := digitsToNat [d1, d2]
      if 1 ≤ mo ∧ mo ≤ 12 ∧ 1 ≤ dy ∧ dy ≤ daysInMonth y mo then
        some ⟨y, mo, dy⟩
      else none
    else none
  | _ => none

/-- Splits a character list at every occurrence of `c`. -/
def splitOnChar (c : Char) : List Char → List (List Char)
  | [] => [[]]
  | x :: xs =>
    match splitOnChar c xs with
    | [] => [[x]]
    | h :: t => if x = c then [] :: h :: t else (x :: h) :: t

/-- Parses the legacy US shape `M/D/YYYY` (one or two digit month and
day) accepted by the JS `Date` constructor, validating ranges. -/
def parseUsDate (s : String) : Option YMD :=
  match (splitOnChar '/' s.data).map String.mk with
  | [ms, ds, ys] =>
    if ms.data ≠ [] ∧ ms.data.length ≤ 2 ∧ ms.data.all Char.isDigit ∧
        ds.data ≠ [] ∧ ds.data.length ≤ 2 ∧ ds.data.all Char.isDigit ∧
        ys.data.length = 4 ∧ ys.data.all Char.isDigit then
      let y := digitsToNat ys.data
      let mo := digitsToNat ms.data
      let dy := digitsToNat ds.data
      if 1 ≤ mo ∧ mo ≤ 12 ∧ 1 ≤ dy ∧ dy ≤ daysInMonth y mo then
        some ⟨y, mo, dy⟩
      else none
    else none
  | _ => none

/-- Models `new Date(v)` for the values this module feeds it: a string
parses as ISO or legacy US, everything else (including the numeric
timestamps the module never produces) is an Invalid Date, `none`. The
constructor never throws. -/
def jsNewDate (v : JSVal) : Option YMD :=
  match v with
  | .str s =>
    match parseIsoDate s with
    | some d => some d
    | none => parseUsDate s
  | _ => none

/-- The calendar day after `d`. -/
def nextDay (d : YMD) : YMD :=
  if d.day < daysInMonth d.year d.month then ⟨d.year, d.month, d.day + 1⟩
  else if d.month < 12 then ⟨d.year, d.month + 1, 1⟩
  else ⟨d.year + 1, 1, 1⟩

/-- Calendar addition of `n` days, as JS `setDate(getDate() + n)`
normalises day overflow. -/
def addDays : ℕ → YMD → YMD
  | 0, d => d
  | n + 1, d => addDays n (nextDay d)

/-- JS `toLocaleDateString('en-US')` of a valid date: `M/D/YYYY`
without zero padding. -/
def usLocaleDate (d : YMD) : String :=
  natDec d.month ++ "/" ++ natDec d.day ++ "/" ++ natDec d.year

/-! ## Raw records and normalization -/

/-- A raw record is a JS object read as a property map; absent
properties are `undefined`. -/
def RawRecord : Type := String → JSVal

/-- Builds a raw record from an association list of properties. -/
def recOf (fields : List (String × JSVal)) : RawRecord := fun k =>
  match fields.lookup k with
  | some v => v
  | none => .undefined

/-- The canonical load produced by `normalizeLoad` (lines 138-154). -/
structure Load where
  id : JSVal
  date : JSVal
  ticketNumber : JSVal
  hauler : JSVal
  truckId : JSVal
  weightTons : JSNum
  weightLbs : JSNum
  materialType : JSVal
  carbonSaved : JSNum
  hash : JSVal
  projectId : JSVal
  projectName : JSVal
  notes : JSVal
deriving DecidableEq

/-- Clock inputs of one export invocation: `new Date().toISOString()`
and `new Date().toLocaleDateString()` of the current instant. -/
structure Clock where
  nowIso : String
  nowLocale : String

/-- Models `normalizeLoad` (lines 138-154): alias fallback via `||`,
permissive numeric parsing via `parseFloat`, string defaults. -/
def normalizeLoad (nowIso : String) (load : RawRecord) : Load :=
  { id := jsOr (load "id") (jsOr (load "loadId") (jsOr (load "load_id") (.str "N/A")))
  , date := jsOr (load "date") (jsOr (load "loadDate") (jsOr (load "load_date")
      (jsOr (load "created_at") (.str nowIso))))
  , ticketNumber := jsOr (load "ticketNumber") (jsOr (load "ticket_number")
      (jsOr (load "ticket") (.str "")))
  , hauler := jsOr (load "hauler") (jsOr (load "haulerName")
      (jsOr (load "hauler_name") (.str "")))
  , truckId := jsOr (load "truckId") (jsOr (load "truck_id")
      (jsOr (load "vehicle") (.str "")))
  , weightTons := jsParseFloat (jsOr (load "weightTons") (jsOr (load "weight_tons")
      (jsOr (load "net_weight_tons") (jsOr (load "netWeightTons") (.num (.val 0))))))
  , weightLbs := jsParseFloat (jsOr (load "weightLbs") (jsOr (load "weight_lbs")
      (jsOr (load "net_weight_lbs") (.num (.val 0)))))
  , materialType := jsOr (load "materialType") (jsOr (load "material_type")
      (jsOr (load "material") (.str "Mixed C&D")))
  , carbonSaved := jsParseFloat (jsOr (load "carbonSaved") (jsOr (load "carbon_saved")
      (jsOr (load "co2e_savings") (.num (.val 0)))))
  , hash := jsOr (load "hash") (jsOr (load "sha256Hash") (jsOr (load "sha256_hash") (.str "")))
  , projectId := jsOr (load "projectId") (jsOr (load "project_id") (.str "UNASSIGNED"))
  , projectName := jsOr (load "projectName") (jsOr (load "project_name")
      (.str "Unassigned Project"))
  , notes := jsOr (load "notes") (.str "") }

/-- Models `toQBDate` (lines 157-167). `new Date` on an unparseable
input yields an Invalid Date rather than throwing; its getters then
return NaN, `String(NaN)` is "NaN" and `padStart` leaves it alone, so
the template produces "NaN/NaN/NaN". The catch branch (current-date
fallback) is unreachable and therefore absent from the model. -/
def toQBDate (v : JSVal) : String :=
  match jsNewDate v with
  | some d =>
    padStartZeros 2 (natDec d.month) ++ "/" ++ padStartZeros 2 (natDec d.day) ++
      "/" ++ natDec d.year
  | none => "NaN/NaN/NaN"

/-- Models `resolveWeightTons` (lines 171-175). The comparisons are JS
`>` on possibly-NaN numbers (NaN compares false); the conversion is
`Number((lbs / 2000).toFixed(4))`. -/
def jsNumGtZero : JSNum → Bool
  | .nan => false
  | .val q => 0 < q

/-- Numeric value of a `JSNum` in a branch where it is known positive
(the NaN arm is unreachable at every call site). -/
def jsNumToQ : JSNum → ℚ
  | .nan => 0
  | .val q => q

def resolveWeightTons (load : Load) : ℚ :=
  if jsNumGtZero load.weightTons then jsNumToQ load.weightTons
  else if jsNumGtZero load.weightLbs then toFixedQ 4 (jsNumToQ load.weightLbs / 2000)
  else 0

/-! ## Project grouping and date batching -/

/-- One project group (line 130): grouping key value, display name and
the raw records routed to the group. -/
structure Group where
  projectId : JSVal
  projectName : JSVal
  loads : List RawRecord

/-- The raw grouping key of a record (line 129). -/
def groupKey (load : RawRecord) : JSVal :=
  jsOr (load "projectId") (jsOr (load "project_id") (.str "UNASSIGNED"))

/-- Routes one record into the accumulator: `acc[key]` coerces the key
to a string; a fresh group stores the uncoerced key value and the first
record's display name (line 130), and the record is appended to its
group's list (line 131). Insertion order of keys is preserved, matching
what `Object.entries` later yields for the module's string keys. -/
def addToGroups (ks : String) (key : JSVal) (load : RawRecord) :
    List (String × Group) → List (String × Group)
  | [] => [(ks, { projectId := key
                , projectName := jsOr (load "projectName") (jsOr (load "project_name") key)
                , loads := [load] })]
  | (k, g) :: rest =>
    if k = ks then (k, { g with loads := g.loads ++ [load] }) :: rest
    else (k, g) :: addToGroups ks key load rest

/-- Models `groupByProject` (lines 127-134). -/
def groupByProject (loads : List RawRecord) : List (String × Group) :=
  loads.foldl (fun acc load => addToGroups (jsToString (groupKey load)) (groupKey load) load acc) []

/-- Routes one normalized load into the by-date accumulator. -/
def addToDateGroups (k : String) (l : Load) :
    List (String × List Load) → List (String × List Load)
  | [] => [(k, [l])]
  | (k0, ls) :: rest =>
    if k0 = k then (k0, ls ++ [l]) :: rest
    else (k0, ls) :: addToDateGroups k l rest

/-- The per-project invoice batching reduce, written out identically in
`buildIIF` (lines 195-200) and `buildCSV` (lines 293-298): loads keyed
by their `toQBDate` date, in insertion order. -/
def groupByDate (loads : List Load) : List (String × List Load) :=
  loads.foldl (fun acc l => addToDateGroups (toQBDate l.date) l acc) []

/-! ## Load resolution -/

/-- Environment of one resolution call: the observable outcomes of the
IndexedDB open/read (lines 39-75), the navigator connectivity flag, and
the outcome of `getLoadsFromAPI` per scope (lines 78-104; `none` is the
`null` it returns after any error or after the 15 s abort). -/
structure Env where
  dbOpenOk : Bool
  storeFound : Bool
  dbReadOk : Bool
  dbRecords : List RawRecord
  online : Bool
  apiResult : Option String → Option (List RawRecord)

/-- The scope filter of `getLoadsFromDB` (lines 64-66): applied only
when `projectId` is truthy, comparing `String(l.projectId)` with
`String(projectId)`. -/
def pidFilter (pid : Option String) (loads : List RawRecord) : List RawRecord :=
  match pid with
  | some p => if p = "" then loads else loads.filter (fun l => jsToString (l "projectId") = p)
  | none => loads

/-- The confirmed-status filter of `getLoadsFromDB` (line 68). -/
def statusKeep (l : RawRecord) : Bool :=
  l "status" ≠ JSVal.str "draft" ∧ l "status" ≠ JSVal.str "pending_upload"

/-- Models `getLoadsFromDB` (lines 39-75): reject on open failure,
resolve `[]` when neither store exists, reject on read failure,
otherwise filter by scope and then drop drafts and pending uploads. -/
def getLoadsFromDB (pid : Option String) (env : Env) : Except String (List RawRecord) :=
  if env.dbOpenOk = false then .error "IndexedDB unavailable"
  else if env.storeFound = false then .ok []
  else if env.dbReadOk = false then .error "Failed to read loads from IndexedDB"
  else .ok ((pidFilter pid env.dbRecords).filter statusKeep)

/-- The NoData message of `resolveLoads` (line 120). -/
def noDataMsg : String := "No confirmed loads found. Check that loads are synced."

/-- The `.catch(() => [])` on the local query (line 109): any local
failure is swallowed into an empty result. -/
def dbLoadsOf (pid : Option String) (env : Env) : List RawRecord :=
  match getLoadsFromDB pid env with
  | .ok ls => ls
  | .error _ => []

/-- Models `resolveLoads` (lines 107-124). The second component records
whether `getLoadsFromAPI` was invoked, which the source does exactly
when the local result is empty and the navigator is online. -/
def resolveLoads (pid : Option String) (env : Env) :
    Except String (List RawRecord) × Bool :=
  let loads := dbLoadsOf pid env
  let afterApi : List RawRecord × Bool :=
    if loads.length = 0 ∧ env.online = true then
      match env.apiResult pid with
      | some apiLoads => (if apiLoads.length > 0 then apiLoads else loads, true)
      | none => (loads, true)
    else (loads, false)
  if afterApi.1.length = 0 then (.error noDataMsg, afterApi.2)
  else (.ok afterApi.1, afterApi.2)

/-! ## Serializer configuration (the CONFIG object, lines 24-35) -/

def cfgIncomeAccount : String := "LEED Compliance Services"
def cfgARAccount : String := "Accounts Receivable"
def cfgClassPrefixStr : String := "LEED-"
def cfgRatePerTon : ℚ := 125
def cfgTerms : String := "Net 30"
def cfgMemoPrefixStr : String := "DivertScan Load"

/-- JS `Array.prototype.join(sep)` on an array of strings. -/
def joinSep (sep : String) : List String → String
  | [] => ""
  | [x] => x
  | x :: y :: t => x ++ sep ++ joinSep sep (y :: t)

/-! ## Format A: IIF generator (lines 179-257) -/

/-- The QB class of `buildIIF` (line 191): the fixed prefix, then the
display name with every character outside letters, digits, whitespace
and hyphen removed, then trimmed. -/
def isClassChar (c : Char) : Bool := c.isAlpha ∨ c.isDigit ∨ jsIsWhite c ∨ c = '-'

def qbClassIIF (pn : String) : String :=
  cfgClassPrefixStr ++ jsTrim (String.mk (pn.data.filter isClassChar))

/-- The QB class of `buildCSV` (line 290): the same prefix, but commas,
double quotes and newlines replaced by spaces, then trimmed. -/
def qbClassCSV (pn : String) : String :=
  cfgClassPrefixStr ++
    jsTrim (String.mk (pn.data.map (fun c => if c = ',' ∨ c = '"' ∨ c = '\n' then ' ' else c)))

/-- First `n` characters, as JS `substring(0, n)`. -/
def jsSubstringTo (n : ℕ) (s : String) : String := String.mk (s.data.take n)

/-- The SPL memo (lines 228-233): parts filtered by JS truthiness and
joined by a space. -/
def iifMemo (load : Load) : String :=
  let parts : List JSVal :=
    [ .str (cfgMemoPrefixStr ++ " #" ++ jsToString (jsOr load.ticketNumber load.id))
    , load.materialType
    , if load.hauler.truthy then .str ("| " ++ jsToString load.hauler) else .str ""
    , if load.hash.truthy then .str ("| SHA:" ++ jsSubstringTo 8 (jsToString load.hash))
      else .str "" ]
  joinSep " " ((parts.filter JSVal.truthy).map jsToString)

/-- The unrounded invoice total of one batch (lines 204-206). -/
def iifInvoiceTotalQ (dayLoads : List Load) : ℚ :=
  dayLoads.foldl (fun s l => s + resolveWeightTons l * cfgRatePerTon) 0

/-- The unrounded amount of one SPL line (line 227). -/
def iifLineAmountRawQ (load : Load) : ℚ := resolveWeightTons load * cfgRatePerTon

/-- Numeric value carried by the printed SPL amount: the line's raw
amount as rounded by `toFixed(2)` (line 227). -/
def iifLineAmountQ (load : Load) : ℚ := toFixedQ 2 (iifLineAmountRawQ load)

/-- Numeric value carried by the printed transaction-header AMOUNT:
the batch total rounded once by `toFixed(2)` (lines 204-206). -/
def iifHeaderAmountQ (dayLoads : List Load) : ℚ := toFixedQ 2 (iifInvoiceTotalQ dayLoads)

/-- One TRNS (invoice header) line (lines 209-222). -/
def iifTrnsLine (pn qbClass invoiceDate docNum : String) (dayLoads : List Load) : String :=
  joinSep "\t"
    [ "TRNS", "INVOICE", invoiceDate, cfgARAccount, pn, qbClass
    , qToFixedString 2 (iifInvoiceTotalQ dayLoads), docNum
    , "LEED Compliance Documentation - " ++ pn, "N", "Y", cfgTerms ]

/-- One SPL (detail) line (lines 235-249); the amount is printed
negated by prefixing a minus sign to the `toFixed(2)` string. -/
def iifSplLine (pn qbClass invoiceDate docNum : String) (load : Load) : String :=
  joinSep "\t"
    [ "SPL", "INVOICE", invoiceDate, cfgIncomeAccount, pn, qbClass
    , "-" ++ qToFixedString 2 (iifLineAmountRawQ load), docNum, iifMemo load, "N"
    , qToFixedString 4 (resolveWeightTons load), qToFixedString 2 cfgRatePerTon
    , "LEED Compliance Documentation" ]

/-- All lines pushed for one batch: the TRNS header, one SPL per load,
then the ENDTRNS terminator (lines 209-252). -/
def iifBatchLines (pn qbClass invoiceDate docNum : String) (dayLoads : List Load) :
    List String :=
  iifTrnsLine pn qbClass invoiceDate docNum dayLoads ::
    dayLoads.map (iifSplLine pn qbClass invoiceDate docNum) ++ ["ENDTRNS"]

/-- The three fixed IIF header lines (lines 183-185). -/
def iifHeaderLines : List String :=
  [ "!TRNS\tTRNSTYPE\tDATE\tACCNT\tNAME\tCLASS\tAMOUNT\tDOCNUM\tMEMO\tCLEAR\tTOPRINT\tTERMS"
  , "!SPL\tTRNSTYPE\tDATE\tACCNT\tNAME\tCLASS\tAMOUNT\tDOCNUM\tMEMO\tCLEAR\tQNTY\tPRICE\tINVITEM"
  , "!ENDTRNS" ]

/-- The inner per-batch step of `buildIIF` (lines 202-253): assign
`DS-` plus the running counter, emit the batch lines, bump the
counter. -/
def iifBatchStep (pn qbClass : String) (acc : List String × ℕ)
    (dl : String × List Load) : List String × ℕ :=
  (acc.1 ++ iifBatchLines pn qbClass dl.1 ("DS-" ++ natDec acc.2) dl.2, acc.2 + 1)

/-- The outer per-project step of `buildIIF` (lines 189-254). -/
def iifGroupStep (nowIso : String) (acc : List String × ℕ)
    (pg : String × Group) : List String × ℕ :=
  let pn := jsToString pg.2.projectName
  let qbClass := qbClassIIF pn
  let loads := pg.2.loads.map (normalizeLoad nowIso)
  (groupByDate loads).foldl (iifBatchStep pn qbClass) acc

/-- Models `buildIIF` (lines 179-257): header lines, then all project
groups with a shared invoice counter seeded at 1000, joined by CRLF. -/
def buildIIF (clock : Clock) (projectGroups : List (String × Group)) : String :=
  joinSep "\r\n" (projectGroups.foldl (iifGroupStep clock.nowIso) (iifHeaderLines, 1000)).1

/-! ## Format B: CSV generator (lines 261-353) -/

/-- The QBO header row (lines 265-284). -/
def csvHeaderRow : String :=
  joinSep ","
    [ "InvoiceNo", "Customer", "InvoiceDate", "DueDate", "Terms", "ItemName"
    , "ItemDescription", "Qty", "Rate", "Amount", "Class", "Memo", "SHA256_Audit_Hash"
    , "LoadTicket", "MaterialType", "Hauler", "TruckID", "CarbonSavedTons" ]

/-- CSV-safe field (line 326): nullish values become the empty string,
the result is coerced to a string, internal double quotes are doubled,
and the whole field is wrapped in double quotes. -/
def csvSafe (v : JSVal) : String :=
  let base := match v with
    | .undefined => ""
    | .null => ""
    | w => jsToString w
  "\"" ++ String.mk (base.data.foldr (fun c acc => if c = '"' then '"' :: '"' :: acc else c :: acc) []) ++ "\""

/-- The Net-30 due date (lines 304-312): parse the invoice date, add 30
calendar days, render in the en-US locale. An unparseable invoice date
is an Invalid Date all the way through and prints as "Invalid Date";
the catch branch is unreachable. -/
def csvDueDate (invoiceDate : String) : String :=
  match jsNewDate (.str invoiceDate) with
  | some d => usLocaleDate (addDays 30 d)
  | none => "Invalid Date"

/-- The composite item description (lines 318-323): template parts
filtered of empty strings and joined by a pipe. -/
def csvDescription (load : Load) : String :=
  let parts : List String :=
    [ "LEED v5 MRp2 Compliance Documentation"
    , "Load #" ++ jsToString (jsOr load.ticketNumber load.id)
    , jsToString load.materialType
    , if load.hauler.truthy then "Hauler: " ++ jsToString load.hauler else "" ]
  joinSep " | " (parts.filter (fun s => s ≠ ""))

/-- JS `(load.carbonSaved || 0)`: NaN and 0 are falsy. -/
def numOrZero : JSNum → ℚ
  | .nan => 0
  | .val q => q

/-- One CSV data row (lines 314-347). -/
def csvRow (clock : Clock) (pn qbClass invoiceDate dueDate docNum : String)
    (load : Load) : String :=
  joinSep ","
    [ csvSafe (.str docNum), csvSafe (.str pn), csvSafe (.str invoiceDate)
    , csvSafe (.str dueDate), csvSafe (.str cfgTerms)
    , csvSafe (.str "LEED Compliance Documentation"), csvSafe (.str (csvDescription load))
    , qToFixedString 4 (resolveWeightTons load), qToFixedString 2 cfgRatePerTon
    , qToFixedString 2 (resolveWeightTons load * cfgRatePerTon)
    , csvSafe (.str qbClass), csvSafe (.str ("DivertScan Export | " ++ clock.nowLocale))
    , csvSafe (jsOr load.hash (.str "")), csvSafe (jsOr load.ticketNumber load.id)
    , csvSafe load.materialType, csvSafe load.hauler, csvSafe load.truckId
    , qToFixedString 4 (numOrZero load.carbonSaved) ]

/-- The inner per-batch step of `buildCSV` (lines 300-349). -/
def csvBatchStep (clock : Clock) (pn qbClass : String) (acc : List String × ℕ)
    (dl : String × List Load) : List String × ℕ :=
  (acc.1 ++ dl.2.map (csvRow clock pn qbClass dl.1 (csvDueDate dl.1) ("DS-" ++ natDec acc.2)),
   acc.2 + 1)

/-- The outer per-project step of `buildCSV` (lines 288-350). -/
def csvGroupStep (clock : Clock) (acc : List String × ℕ)
    (pg : String × Group) : List String × ℕ :=
  let pn := jsToString pg.2.projectName
  let qbClass := qbClassCSV pn
  let loads := pg.2.loads.map (normalizeLoad clock.nowIso)
  (groupByDate loads).foldl (csvBatchStep clock pn qbClass) acc

/-- Models `buildCSV` (lines 261-353): the header row, then one row per
load with a shared invoice counter seeded at 1000, joined by CRLF. -/
def buildCSV (clock : Clock) (projectGroups : List (String × Group)) : String :=
  joinSep "\r\n" (projectGroups.foldl (csvGroupStep clock) ([csvHeaderRow], 1000)).1

/-! ## Shared batch enumeration

Both serializers traverse `Object.entries(projectGroups)` and then their
(word-for-word identical) by-date reduce, assigning `DS-` document
numbers from a counter seeded at 1000. The enumeration below names that
shared traversal; the structure lemmas prove each builder equal to a
rendering of this enumeration numbered by position. -/

/-- Pair each element with a counter starting at `n`, in order. -/
def numberFrom (n : ℕ) : List α → List (ℕ × α)
  | [] => []
  | a :: t => (n, a) :: numberFrom (n + 1) t

/-- The (project display name, invoice date, day loads) batches of an
export, in the traversal order both builders share. -/
def exportBatches (nowIso : String) (groups : List (String × Group)) :
    List (String × String × List Load) :=
  groups.flatMap fun pg =>
    (groupByDate (pg.2.loads.map (normalizeLoad nowIso))).map
      (fun dl => (jsToString pg.2.projectName, dl.1, dl.2))

/-- The document number the builders derive from counter value `n`. -/
def docNumOf (n : ℕ) : String := "DS-" ++ natDec n

/-- The IIF lines of one numbered batch. -/
def iifRenderB (b : String × String × List Load) (n : ℕ) : List String :=
  iifBatchLines b.1 (qbClassIIF b.1) b.2.1 (docNumOf n) b.2.2

/-- The CSV rows of one numbered batch. -/
def csvRenderB (clock : Clock) (b : String × String × List Load) (n : ℕ) : List String :=
  b.2.2.map (csvRow clock b.1 (qbClassCSV b.1) b.2.1 (csvDueDate b.2.1) (docNumOf n))

/-! ## Observations on documents -/

/-- Whether a string ends with the two-character sequence CR LF. -/
def endsWithCRLF (s : String) : Bool :=
  match s.data.reverse with
  | '\n' :: '\r' :: _ => true
  | _ => false

/-- Last character of a string, if any. -/
def lastChar (s : String) : Option Char := s.data.reverse.head?

/-! ## Concrete fixtures used by witnesses and counterexamples -/

def clock0 : Clock := ⟨"2024-06-01T12:00:00.000Z", "6/1/2024"⟩

/-- A canonical load with the given tons value and neutral other
fields, as `normalizeLoad` would produce it. -/
def tonsLoad (t : ℚ) : Load :=
  { id := .str "L1", date := .str "2024-06-01", ticketNumber := .str "T1"
  , hauler := .str "", truckId := .str "", weightTons := .val t, weightLbs := .val 0
  , materialType := .str "Mixed C&D", carbonSaved := .val 0, hash := .str ""
  , projectId := .str "P1", projectName := .str "Alpha", notes := .str "" }

/-- A canonical load carrying only a pounds weight. -/
def lbsLoad (lbs : ℚ) : Load :=
  { tonsLoad 0 with weightTons := .val 0, weightLbs := .val lbs }

/-- A raw record whose weightTons property is the non-numeric string
value used in the specification example. -/
def recAbc : RawRecord := recOf [("weightTons", .str "abc")]

/-- A raw record with no properties at all. -/
def recEmpty : RawRecord := recOf []

/-- A confirmed raw record on project P1. -/
def cRec (tag : String) : RawRecord :=
  recOf [("id", .str tag), ("projectId", .str "P1"), ("projectName", .str "Alpha")
        , ("date", .str "2024-06-01"), ("status", .str "confirmed")]

/-- A draft raw record on project P1. -/
def dRec (tag : String) : RawRecord :=
  recOf [("id", .str tag), ("projectId", .str "P1"), ("projectName", .str "Alpha")
        , ("date", .str "2024-06-01"), ("status", .str "draft")]

/-- Environment of the three-confirmed-plus-two-draft scenario, with
network connectivity reported. -/
def env7 : Env :=
  { dbOpenOk := true, storeFound := true, dbReadOk := true
  , dbRecords := [cRec "a", cRec "b", dRec "x", cRec "c", dRec "y"]
  , online := true, apiResult := fun _ => none }

/-- Environment of the zero-confirmed, offline scenario. -/
def env8 : Env :=
  { dbOpenOk := true, storeFound := true, dbReadOk := true
  , dbRecords := [dRec "x", dRec "y"], online := false, apiResult := fun _ => none }

/-- Two raw records on distinct projects. -/
def recP1 : RawRecord :=
  recOf [("projectId", .str "P1"), ("projectName", .str "Alpha"), ("status", .str "confirmed")]

def recP2 : RawRecord :=
  recOf [("project_id", .str "P2"), ("project_name", .str "Beta"), ("status", .str "confirmed")]

/-! ## Helper lemmas -/

theorem toFixedQ_of_nonneg (d : ℕ) (x : ℚ) (h : 0 ≤ x) :
    toFixedQ d x = (⌊x * 10 ^ d + 1 / 2⌋ : ℚ) / 10 ^ d := by
  rw [toFixedQ, if_neg (not_lt.mpr h), abs_of_nonneg h]

theorem toFixedQ_fixedpoint (d : ℕ) (n : ℤ) :
    toFixedQ d ((n : ℚ) / 10 ^ d) = (n : ℚ) / 10 ^ d := by
  have hp : (0 : ℚ) < 10 ^ d := by positivity
  rcases le_or_lt 0 (n : ℚ) with hn | hn
  · rw [toFixedQ_of_nonneg d _ (by positivity)]
    rw [div_mul_cancel₀ _ (ne_of_gt hp)]
    rw [Int.floor_int_add]
    norm_num
  · have hneg : (n : ℚ) / 10 ^ d < 0 := div_neg_of_neg_of_pos hn hp
    rw [toFixedQ, if_pos hneg, abs_of_neg hneg]
    have h1 : -((n : ℚ) / 10 ^ d) * 10 ^ d = ((-n : ℤ) : ℚ) := by
      rw [← neg_div, div_mul_cancel₀ _ (ne_of_gt hp)]
      push_cast
      ring
    rw [h1, Int.floor_int_add]
    rw [show ⌊(1 : ℚ) / 2⌋ = 0 by norm_num, add_zero]
    push_cast
    ring

theorem sum_of_div_pow (d : ℕ) :
    ∀ l : List ℚ, (∀ x ∈ l, ∃ n : ℤ, x = (n : ℚ) / 10 ^ d) →
      ∃ m : ℤ, l.sum = (m : ℚ) / 10 ^ d := by
  intro l
  induction l with
  | nil => exact fun _ => ⟨0, by simp⟩
  | cons a t ih =>
    intro h
    obtain ⟨n, hn⟩ := h a (List.mem_cons_self a t)
    obtain ⟨m, hm⟩ := ih (fun x hx => h x (List.mem_cons_of_mem a hx))
    exact ⟨n + m, by rw [List.sum_cons, hn, hm]; push_cast; ring⟩

theorem foldl_add_eq_sum (f : α → ℚ) :
    ∀ (l : List α) (init : ℚ), l.foldl (fun s x => s + f x) init = init + (l.map f).sum := by
  intro l
  induction l with
  | nil => intro init; simp
  | cons a t ih => intro init; rw [List.foldl_cons, ih, List.map_cons, List.sum_cons]; ring

theorem iifInvoiceTotalQ_eq_sum (dayLoads : List Load) :
    iifInvoiceTotalQ dayLoads = (dayLoads.map iifLineAmountRawQ).sum := by
  rw [iifInvoiceTotalQ]
  have := foldl_add_eq_sum (fun l => resolveWeightTons l * cfgRatePerTon) dayLoads 0
  rw [this, zero_add]
  rfl

theorem map_eq_self_of_eq (f : α → α) :
    ∀ l : List α, (∀ a ∈ l, f a = a) → l.map f = l := by
  intro l
  induction l with
  | nil => intro _; rfl
  | cons a t ih =>
    intro h
    rw [List.map_cons, h a (List.mem_cons_self a t), ih (fun x hx => h x (List.mem_cons_of_mem a hx))]

/-! ## C6 — the weight resolver -/

/-- C6: `resolveWeightTons` returns the tons field unchanged whenever it
is positive, regardless of the pounds field; otherwise, when the pounds
field is positive, it returns pounds over 2000 rounded to 4 decimal
places (4000 pounds giving exactly 2 tons); otherwise it returns 0. -/
theorem resolveWeightTons_spec (load : Load) :
    (∀ t : ℚ, load.weightTons = .val t → 0 < t → resolveWeightTons load = t) ∧
    (jsNumGtZero load.weightTons = false →
      ∀ p : ℚ, load.weightLbs = .val p → 0 < p →
        resolveWeightTons load = toFixedQ 4 (p / 2000)) ∧
    (jsNumGtZero load.weightTons = false → jsNumGtZero load.weightLbs = false →
      resolveWeightTons load = 0) ∧
    (load.weightTons = .val 0 → load.weightLbs = .val 4000 → resolveWeightTons load = 2) := by
  refine ⟨?_, ?_, ?_, ?_⟩
  · intro t ht hpos
    rw [resolveWeightTons, ht]
    simp [jsNumGtZero, jsNumToQ, hpos]
  · intro h0 p hp hppos
    rw [resolveWeightTons, hp, if_neg (by simp [h0])]
    simp [jsNumGtZero, jsNumToQ, hppos]
  · intro h0 h1
    rw [resolveWeightTons, if_neg (by simp [h0]), if_neg (by simp [h1])]
  · intro h0 h4000
    rw [resolveWeightTons, h0, h4000]
    simp only [jsNumGtZero, jsNumToQ]
    norm_num [toFixedQ]

/-- Witness for C6 at the specification example: a load with zero tons
and 4000 pounds resolves to exactly 2 tons. -/
theorem resolveWeightTons_spec_witness : resolveWeightTons (lbsLoad 4000) = 2 :=
  (resolveWeightTons_spec (lbsLoad 4000)).2.2.2 rfl rfl

/-! ## C3 — malformed dates -/

/-- C3: on an unparseable date string the code does not substitute the
current date. `new Date` yields an Invalid Date without throwing, its
getters return NaN, and `toQBDate` renders "NaN/NaN/NaN"; the
current-date catch branch is dead. -/
theorem toQBDate_malformed : toQBDate (.str "not-a-date") = "NaN/NaN/NaN" := by decide

/-! ## C2 — permissive numeric parsing -/

/-- Counterexample to C2: a record whose weightTons property is the
truthy non-numeric string "abc" normalizes to NaN, not to zero. -/
theorem normalizeLoad_abc_nan :
    (normalizeLoad "2024-06-01T00:00:00.000Z" recAbc).weightTons = JSNum.nan ∧
    (normalizeLoad "2024-06-01T00:00:00.000Z" recAbc).weightTons ≠ JSNum.val 0 := by
  decide

/-- C2 amended: `normalizeLoad` is total, and each numeric field
resolves to zero whenever the record's value under every known alias is
missing or falsy; a present truthy non-numeric value instead reaches
`parseFloat` and can produce NaN. -/
theorem normalizeLoad_missing_defaults (nowIso : String) (load : RawRecord) :
    ((load "weightTons").truthy = false → (load "weight_tons").truthy = false →
      (load "net_weight_tons").truthy = false → (load "netWeightTons").truthy = false →
      (normalizeLoad nowIso load).weightTons = .val 0) ∧
    ((load "weightLbs").truthy = false → (load "weight_lbs").truthy = false →
      (load "net_weight_lbs").truthy = false →
      (normalizeLoad nowIso load).weightLbs = .val 0) ∧
    ((load "carbonSaved").truthy = false → (load "carbon_saved").truthy = false →
      (load "co2e_savings").truthy = false →
      (normalizeLoad nowIso load).carbonSaved = .val 0) := by
  refine ⟨?_, ?_, ?_⟩
  · intro h1 h2 h3 h4
    simp [normalizeLoad, jsOr, h1, h2, h3, h4, jsParseFloat]
  · intro h1 h2 h3
    simp [normalizeLoad, jsOr, h1, h2, h3, jsParseFloat]
  · intro h1 h2 h3
    simp [normalizeLoad, jsOr, h1, h2, h3, jsParseFloat]

/-- Witness for the amended C2: a record with no properties at all
normalizes all three numeric fields to zero. -/
theorem normalizeLoad_missing_defaults_witness :
    (normalizeLoad "2024-06-01T00:00:00.000Z" recEmpty).weightTons = .val 0 ∧
    (normalizeLoad "2024-06-01T00:00:00.000Z" recEmpty).weightLbs = .val 0 ∧
    (normalizeLoad "2024-06-01T00:00:00.000Z" recEmpty).carbonSaved = .val 0 :=
  ⟨(normalizeLoad_missing_defaults _ recEmpty).1 rfl rfl rfl rfl,
   (normalizeLoad_missing_defaults _ recEmpty).2.1 rfl rfl rfl,
   (normalizeLoad_missing_defaults _ recEmpty).2.2 rfl rfl rfl⟩

/-! ## C5 — the class label -/

/-- Counterexample to C5: the two serializers do not share one class
rule. On the display name "St. Mary" the IIF builder strips the period
while the CSV builder keeps it. -/
theorem qbClass_rules_differ :
    qbClassIIF "St. Mary" = "LEED-St Mary" ∧
    qbClassCSV "St. Mary" = "LEED-St. Mary" ∧
    qbClassIIF "St. Mary" ≠ qbClassCSV "St. Mary" := by
  decide

/-- C5 amended: Format A strips characters outside letters, digits,
whitespace and hyphen and trims; Format B instead replaces commas,
double quotes and newlines by spaces and trims; the two rules agree on
every display name built only from letters, digits, spaces and
hyphens. -/
theorem qbClass_agree (pn : String)
    (h : ∀ c ∈ pn.data, c.isAlpha = true ∨ c.isDigit = true ∨ c = ' ' ∨ c = '-') :
    qbClassIIF pn = qbClassCSV pn := by
  rw [qbClassIIF, qbClassCSV]
  have hf : pn.data.filter isClassChar = pn.data := by
    rw [List.filter_eq_self]
    intro c hc
    rcases h c hc with hA | hD | hS | hH
    · simp [isClassChar, hA]
    · simp [isClassChar, hD]
    · simp [isClassChar, jsIsWhite, hS]
    · simp [isClassChar, hH]
  have hm : pn.data.map (fun c => if c = ',' ∨ c = '"' ∨ c = '\n' then ' ' else c) = pn.data := by
    refine map_eq_self_of_eq _ pn.data (fun c hc => ?_)
    have hno : ¬(c = ',' ∨ c = '"' ∨ c = '\n') := by
      rintro (rfl | rfl | rfl) <;> rcases h _ hc with hA | hD | hS | hH <;> simp_all
    rw [if_neg hno]
  rw [hf, hm]

/-- Witness for the amended C5 at a benign display name. -/
theorem qbClass_agree_witness : qbClassIIF "Alpha Tower-2" = qbClassCSV "Alpha Tower-2" :=
  qbClass_agree "Alpha Tower-2" (by decide)

/-! ## C1 — header amount versus detail amounts -/

/-- Counterexample to C1: a batch of three loads of 0.0013 tons each.
Every detail line rounds to 0.16, summing to 0.48, while the header
rounds the exact total 0.4875 once, to 0.49: the header AMOUNT is not
the sum of the individually rounded detail amounts. -/
theorem iif_header_amount_drift :
    iifHeaderAmountQ [tonsLoad (13 / 10000), tonsLoad (13 / 10000), tonsLoad (13 / 10000)] ≠
      ([tonsLoad (13 / 10000), tonsLoad (13 / 10000),
        tonsLoad (13 / 10000)].map iifLineAmountQ).sum := by
  have h1 : resolveWeightTons (tonsLoad (13 / 10000)) = 13 / 10000 := by
    norm_num [resolveWeightTons, tonsLoad, jsNumGtZero, jsNumToQ]
  have h2 : iifLineAmountQ (tonsLoad (13 / 10000)) = 16 / 100 := by
    rw [iifLineAmountQ, iifLineAmountRawQ, h1, cfgRatePerTon]
    rw [show (13 : ℚ) / 10000 * 125 = 13 / 80 by norm_num]
    rw [toFixedQ_of_nonneg 2 _ (by norm_num)]
    norm_num
  have h3 : iifInvoiceTotalQ
      [tonsLoad (13 / 10000), tonsLoad (13 / 10000), tonsLoad (13 / 10000)] = 39 / 80 := by
    norm_num [iifInvoiceTotalQ, h1, cfgRatePerTon]
  rw [iifHeaderAmountQ, h3, toFixedQ_of_nonneg 2 _ (by norm_num)]
  simp only [List.map_cons, List.map_nil, List.sum_cons, List.sum_nil, h2]
  norm_num

/-- C1 amended: the Format A transaction-header AMOUNT is the batch
total (sum of resolved tons times the 125.00 rate) rounded once to two
decimals. It equals the sum of the individually rounded detail-line
amounts whenever each line amount is already exact at two decimal
places; otherwise the two can drift apart. -/
theorem iif_header_amount_eq_sum (dayLoads : List Load)
    (h : ∀ l ∈ dayLoads, toFixedQ 2 (iifLineAmountRawQ l) = iifLineAmountRawQ l) :
    iifHeaderAmountQ dayLoads = (dayLoads.map iifLineAmountQ).sum := by
  have hmap : dayLoads.map iifLineAmountQ = dayLoads.map iifLineAmountRawQ :=
    List.map_congr_left (fun l hl => h l hl)
  have hfix : ∀ x ∈ dayLoads.map iifLineAmountRawQ, ∃ n : ℤ, x = (n : ℚ) / 10 ^ 2 := by
    intro x hx
    obtain ⟨l, hl, rfl⟩ := List.mem_map.mp hx
    have hx2 := h l hl
    rcases lt_or_le (iifLineAmountRawQ l) 0 with hneg | hpos
    · refine ⟨-⌊|iifLineAmountRawQ l| * 10 ^ 2 + 1 / 2⌋, ?_⟩
      conv_lhs => rw [← hx2]
      rw [toFixedQ, if_pos hneg]
      push_cast
      ring
    · refine ⟨⌊|iifLineAmountRawQ l| * 10 ^ 2 + 1 / 2⌋, ?_⟩
      conv_lhs => rw [← hx2]
      rw [toFixedQ, if_neg (not_lt.mpr hpos)]
  obtain ⟨m, hm⟩ := sum_of_div_pow 2 _ hfix
  rw [iifHeaderAmountQ, iifInvoiceTotalQ_eq_sum, hmap, hm, toFixedQ_fixedpoint]

/-- Hypothesis of the C1 witness: with tons 2.5 and 1.0 both line
amounts (312.50 and 125.00) are exact at two decimals. -/
theorem c1_witness_lines :
    ∀ l ∈ [tonsLoad (5 / 2), tonsLoad 1],
      toFixedQ 2 (iifLineAmountRawQ l) = iifLineAmountRawQ l := by
  have ha : iifLineAmountRawQ (tonsLoad (5 / 2)) = ((31250 : ℤ) : ℚ) / 10 ^ 2 := by
    norm_num [iifLineAmountRawQ, resolveWeightTons, tonsLoad, jsNumGtZero, jsNumToQ,
      cfgRatePerTon]
  have hb : iifLineAmountRawQ (tonsLoad 1) = ((12500 : ℤ) : ℚ) / 10 ^ 2 := by
    norm_num [iifLineAmountRawQ, resolveWeightTons, tonsLoad, jsNumGtZero, jsNumToQ,
      cfgRatePerTon]
  intro l hl
  rcases List.mem_cons.mp hl with rfl | hl2
  · rw [ha, toFixedQ_fixedpoint]
  · rcases List.mem_cons.mp hl2 with rfl | hl3
    · rw [hb, toFixedQ_fixedpoint]
    · cases hl3

/-- Witness for the amended C1 at the end-to-end example of the
specification (tons 2.5 and 1.0 at rate 125.00). -/
theorem iif_header_amount_eq_sum_witness :
    iifHeaderAmountQ [tonsLoad (5 / 2), tonsLoad 1] =
      ([tonsLoad (5 / 2), tonsLoad 1].map iifLineAmountQ).sum :=
  iif_header_amount_eq_sum [tonsLoad (5 / 2), tonsLoad 1] c1_witness_lines

/-! ## C7 — local-first resolution -/

/-- C7: whenever the local source yields at least one confirmed record
(drafts and pending uploads already excluded by `getLoadsFromDB`),
`resolveLoads` returns exactly that list and the remote source is never
queried, whatever the connectivity flag says. -/
theorem resolveLoads_local_wins (pid : Option String) (env : Env) (ls : List RawRecord)
    (hdb : getLoadsFromDB pid env = .ok ls) (hne : ls ≠ []) :
    resolveLoads pid env = (.ok ls, false) := by
  have hl : dbLoadsOf pid env = ls := by rw [dbLoadsOf, hdb]
  have hlen : ls.length ≠ 0 := fun h0 => hne (List.length_eq_zero.mp h0)
  simp [resolveLoads, hl, hlen]

/-- Witness for C7 at the specification scenario: three confirmed and
two draft records in the local store, network online; the result is
exactly the three confirmed records and the API is not consulted. -/
theorem resolveLoads_local_wins_witness :
    resolveLoads none env7 = (.ok [cRec "a", cRec "b", cRec "c"], false) :=
  resolveLoads_local_wins none env7 [cRec "a", cRec "b", cRec "c"] rfl
    (List.cons_ne_nil _ _)

/-! ## C8 — the NoData failure -/

/-- C8: `resolveLoads` fails exactly with the NoData message, and it
does so precisely when the confirmed local result is empty and the
remote source (consulted only when online) contributes nothing; a
local-source failure behaves exactly like an empty local store; every
success carries a nonempty list; and the remote source is queried
exactly when the local result is empty while online. -/
theorem resolveLoads_noData_iff (pid : Option String) (env : Env) :
    ((resolveLoads pid env).1 = .error noDataMsg ↔
      (dbLoadsOf pid env = [] ∧
        (env.online = true → (env.apiResult pid).getD [] = []))) ∧
    (∀ ls, (resolveLoads pid env).1 = .ok ls → ls ≠ []) ∧
    (∀ msg, (resolveLoads pid env).1 = .error msg → msg = noDataMsg) ∧
    (∀ e, getLoadsFromDB pid env = .error e →
      resolveLoads pid env =
        resolveLoads pid { env with dbOpenOk := true, storeFound := false }) ∧
    ((resolveLoads pid env).2 = ((dbLoadsOf pid env).isEmpty && env.online)) := by
  have hemptyEnv : dbLoadsOf pid { env with dbOpenOk := true, storeFound := false } = [] := by
    rw [dbLoadsOf, getLoadsFromDB]
    simp
  refine ⟨?_, ?_, ?_, ?_, ?_⟩
  · rw [resolveLoads]
    rcases hdb : dbLoadsOf pid env with _ | ⟨r, rs⟩
    · cases honline : env.online
      · simp
      · rcases happi : env.apiResult pid with _ | ls
        · simp [happi]
        · rcases ls with _ | ⟨a, as⟩
          · simp [happi]
          · simp [happi]
    · simp [List.length_eq_zero]
  · intro ls hls
    rw [resolveLoads] at hls
    set after := if (dbLoadsOf pid env).length = 0 ∧ env.online = true then
        match env.apiResult pid with
        | some apiLoads => (if apiLoads.length > 0 then apiLoads else dbLoadsOf pid env, true)
        | none => (dbLoadsOf pid env, true)
      else (dbLoadsOf pid env, false) with hafter
    by_cases hz : after.1.length = 0
    · rw [if_pos hz] at hls
      cases hls
    · rw [if_neg hz] at hls
      cases hls
      exact fun hnil => hz (by rw [hnil]; rfl)
  · intro msg hmsg
    rw [resolveLoads] at hmsg
    by_cases hz : (if (dbLoadsOf pid env).length = 0 ∧ env.online = true then
        match env.apiResult pid with
        | some apiLoads => (if apiLoads.length > 0 then apiLoads else dbLoadsOf pid env, true)
        | none => (dbLoadsOf pid env, true)
      else (dbLoadsOf pid env, false)).1.length = 0
    · rw [if_pos hz] at hmsg
      cases hmsg
      rfl
    · rw [if_neg hz] at hmsg
      cases hmsg
  · intro e he
    have h0 : dbLoadsOf pid env = [] := by rw [dbLoadsOf, he]
    rw [resolveLoads, resolveLoads, h0, hemptyEnv]
  · rw [resolveLoads]
    rcases hdb : dbLoadsOf pid env with _ | ⟨r, rs⟩
    · cases honline : env.online
      · simp
      · rcases happi : env.apiResult pid with _ | ls
        · simp [happi]
        · rcases ls with _ | ⟨a, as⟩
          · simp [happi]
          · simp [happi]
    · simp

/-- Witness for C8 at the specification scenario: only draft records in
the local store and the network offline; the operation fails with the
NoData message and the remote source was not queried. -/
theorem resolveLoads_noData_iff_witness :
    (resolveLoads none env8).1 = .error noDataMsg ∧ (resolveLoads none env8).2 = false := by
  constructor
  · exact (resolveLoads_noData_iff none env8).1.mpr
      ⟨rfl, fun h => absurd h (by decide)⟩
  · have h := (resolveLoads_noData_iff none env8).2.2.2.2
    rw [h]
    rfl

/-! ## C9 — grouping is a total, disjoint, key-coherent partition -/

theorem addToGroups_keys (ks : String) (key : JSVal) (load : RawRecord) :
    ∀ acc : List (String × Group),
      (addToGroups ks key load acc).map Prod.fst =
        if ks ∈ acc.map Prod.fst then acc.map Prod.fst else acc.map Prod.fst ++ [ks] := by
  intro acc
  induction acc with
  | nil => simp [addToGroups]
  | cons p rest ih =>
    obtain ⟨k, g⟩ := p
    by_cases hk : k = ks
    · subst hk
      simp [addToGroups]
    · rw [show addToGroups ks key load ((k, g) :: rest) =
        (k, g) :: addToGroups ks key load rest by simp [addToGroups, hk]]
      by_cases hmem : ks ∈ rest.map Prod.fst
      · simp [ih, hmem, hk]
      · have : ks ∈ ((k, g) :: rest).map Prod.fst ↔ ks ∈ rest.map Prod.fst := by
          simp [Ne.symm hk]
        simp [ih, hmem, hk, Ne.symm hk]

theorem addToGroups_nodup (ks : String) (key : JSVal) (load : RawRecord)
    (acc : List (String × Group)) (h : (acc.map Prod.fst).Nodup) :
    ((addToGroups ks key load acc).map Prod.fst).Nodup := by
  rw [addToGroups_keys]
  by_cases hmem : ks ∈ acc.map Prod.fst
  · rwa [if_pos hmem]
  · rw [if_neg hmem]
    rw [List.nodup_append]
    exact ⟨h, List.nodup_singleton ks, by simpa using fun hx => hmem hx⟩

theorem addToGroups_coherent (ks : String) (key : JSVal) (load : RawRecord)
    (hks : ks = jsToString (groupKey load)) :
    ∀ acc : List (String × Group),
      (∀ p ∈ acc, ∀ r ∈ p.2.loads, p.1 = jsToString (groupKey r)) →
      ∀ p ∈ addToGroups ks key load acc, ∀ r ∈ p.2.loads,
        p.1 = jsToString (groupKey r) := by
  intro acc
  induction acc with
  | nil =>
    intro _ p hp r hr
    simp only [addToGroups, List.mem_singleton] at hp
    subst hp
    simp only [List.mem_singleton] at hr
    subst hr
    exact hks
  | cons q rest ih =>
    obtain ⟨k, g⟩ := q
    intro hcoh p hp r hr
    by_cases hk : k = ks
    · subst hk
      rw [show addToGroups k key load ((k, g) :: rest) =
          (k, { g with loads := g.loads ++ [load] }) :: rest by simp [addToGroups]] at hp
      rcases List.mem_cons.mp hp with rfl | hp2
      · rcases List.mem_append.mp hr with hr1 | hr2
        · exact hcoh (k, g) (List.mem_cons_self _ _) r hr1
        · simp only [List.mem_singleton] at hr2
          subst hr2
          exact hks
      · exact hcoh p (List.mem_cons_of_mem _ hp2) r hr
    · rw [show addToGroups ks key load ((k, g) :: rest) =
          (k, g) :: addToGroups ks key load rest by simp [addToGroups, hk]] at hp
      rcases List.mem_cons.mp hp with rfl | hp2
      · exact hcoh (k, g) (List.mem_cons_self _ _) r hr
      · exact ih (fun p2 hp2m => hcoh p2 (List.mem_cons_of_mem _ hp2m)) p hp2 r hr

theorem addToGroups_join_perm (ks : String) (key : JSVal) (load : RawRecord) :
    ∀ acc : List (String × Group),
      List.Perm (((addToGroups ks key load acc).map (fun kg => kg.2.loads)).flatten)
        (((acc.map (fun kg => kg.2.loads)).flatten) ++ [load]) := by
  intro acc
  induction acc with
  | nil => simp [addToGroups]
  | cons q rest ih =>
    obtain ⟨k, g⟩ := q
    by_cases hk : k = ks
    · subst hk
      rw [show addToGroups k key load ((k, g) :: rest) =
          (k, { g with loads := g.loads ++ [load] }) :: rest by simp [addToGroups]]
      simp only [List.map_cons, List.flatten_cons]
      rw [List.append_assoc, List.append_assoc]
      exact List.Perm.append_left g.loads List.perm_append_comm
    · rw [show addToGroups ks key load ((k, g) :: rest) =
          (k, g) :: addToGroups ks key load rest by simp [addToGroups, hk]]
      simp only [List.map_cons, List.flatten_cons]
      rw [List.append_assoc]
      exact List.Perm.append_left g.loads ih

theorem groupFold_perm :
    ∀ (loads : List RawRecord) (acc : List (String × Group)),
      List.Perm
        (((loads.foldl (fun acc load =>
            addToGroups (jsToString (groupKey load)) (groupKey load) load acc) acc).map
          (fun kg => kg.2.loads)).flatten)
        (((acc.map (fun kg => kg.2.loads)).flatten) ++ loads) := by
  intro loads
  induction loads with
  | nil => intro acc; simp
  | cons l t ih =>
    intro acc
    rw [List.foldl_cons]
    refine (ih _).trans ?_
    refine (List.Perm.append_right t (addToGroups_join_perm _ _ _ acc)).trans ?_
    rw [List.append_assoc]
    rfl

theorem groupFold_nodup :
    ∀ (loads : List RawRecord) (acc : List (String × Group)),
      (acc.map Prod.fst).Nodup →
      (((loads.foldl (fun acc load =>
          addToGroups (jsToString (groupKey load)) (groupKey load) load acc) acc).map
        Prod.fst)).Nodup := by
  intro loads
  induction loads with
  | nil => intro acc h; exact h
  | cons l t ih =>
    intro acc h
    rw [List.foldl_cons]
    exact ih _ (addToGroups_nodup _ _ _ acc h)

theorem groupFold_coherent :
    ∀ (loads : List RawRecord) (acc : List (String × Group)),
      (∀ p ∈ acc, ∀ r ∈ p.2.loads, p.1 = jsToString (groupKey r)) →
      ∀ p ∈ loads.foldl (fun acc load =>
          addToGroups (jsToString (groupKey load)) (groupKey load) load acc) acc,
        ∀ r ∈ p.2.loads, p.1 = jsToString (groupKey r) := by
  intro loads
  induction loads with
  | nil => intro acc h; exact h
  | cons l t ih =>
    intro acc h
    rw [List.foldl_cons]
    exact ih _ (addToGroups_coherent _ _ _ rfl acc h)

/-- C9: `groupByProject` partitions its input totally and disjointly —
the group keys are pairwise distinct, the groups collectively hold a
permutation of the input records — and every record lands in the group
whose key is the string form of exactly the project identifier
`normalizeLoad` assigns to it (`projectId`, then `project_id`, then the
"UNASSIGNED" sentinel; `normalizeLoad` resolves it by the same
expression, so the two always agree). -/
theorem groupByProject_partition (loads : List RawRecord) :
    (((groupByProject loads).map Prod.fst).Nodup) ∧
    List.Perm (((groupByProject loads).map (fun kg => kg.2.loads)).flatten) loads ∧
    (∀ kg ∈ groupByProject loads, ∀ r ∈ kg.2.loads, ∀ nowIso : String,
      (normalizeLoad nowIso r).projectId = groupKey r ∧
      kg.1 = jsToString ((normalizeLoad nowIso r).projectId)) := by
  refine ⟨?_, ?_, ?_⟩
  · exact groupFold_nodup loads [] (by simp)
  · have := groupFold_perm loads []
    simpa using this
  · intro kg hkg r hr nowIso
    refine ⟨rfl, ?_⟩
    have := groupFold_coherent loads [] (by simp) kg hkg r hr
    exact this

/-- Witness for C9 on two records that resolve to distinct projects
through the two different alias spellings. -/
theorem groupByProject_partition_witness :
    (((groupByProject [recP1, recP2]).map Prod.fst).Nodup) ∧
    List.Perm (((groupByProject [recP1, recP2]).map (fun kg => kg.2.loads)).flatten)
      [recP1, recP2] :=
  ⟨(groupByProject_partition [recP1, recP2]).1,
   (groupByProject_partition [recP1, recP2]).2.1⟩

/-! ## Last-character lemmas for the line-join analysis -/

theorem digitChar_ne_lf : ∀ k : ℕ, digitChar k ≠ '\n' := by
  intro k
  unfold digitChar
  split <;> decide

theorem natDecCore_last :
    ∀ (fuel n : ℕ), fuel ≠ 0 → (natDecCore fuel n).reverse.head? = some (digitChar (n % 10)) := by
  intro fuel n hf
  cases fuel with
  | zero => exact absurd rfl hf
  | succ f =>
    rw [natDecCore]
    by_cases h : n < 10
    · rw [if_pos h]
      simp [Nat.mod_eq_of_lt h]
    · rw [if_neg h]
      simp

theorem natDec_last (n : ℕ) : (natDec n).data.reverse.head? = some (digitChar (n % 10)) :=
  natDecCore_last (n + 1) n (Nat.succ_ne_zero n)

theorem natDec_ne_nil (n : ℕ) : (natDec n).data ≠ [] := by
  intro h
  have := natDec_last n
  rw [h] at this
  cases this

theorem data_ne_nil_of_last {s : String} {c : Char}
    (h : s.data.reverse.head? = some c) : s.data ≠ [] := by
  intro h0
  rw [h0] at h
  cases h

theorem append_last (a b : String) (hb : b.data ≠ []) :
    (a ++ b).data.reverse.head? = b.data.reverse.head? := by
  rw [String.data_append, List.reverse_append, List.head?_append]
  have : b.data.reverse ≠ [] := fun h => hb (List.reverse_eq_nil_iff.mp h)
  cases hrev : b.data.reverse with
  | nil => exact absurd hrev this
  | cons x t => rfl

theorem padStartZeros_last (t : ℕ) (s : String) (hs : s.data ≠ []) :
    (padStartZeros t s).data.reverse.head? = s.data.reverse.head? ∧
      (padStartZeros t s).data ≠ [] := by
  constructor
  · show (String.mk (List.replicate (t - s.length) '0' ++ s.data)).data.reverse.head? = _
    rw [show (String.mk (List.replicate (t - s.length) '0' ++ s.data)).data =
        List.replicate (t - s.length) '0' ++ s.data from rfl]
    rw [List.reverse_append, List.head?_append]
    have : s.data.reverse ≠ [] := fun h => hs (List.reverse_eq_nil_iff.mp h)
    cases hrev : s.data.reverse with
    | nil => exact absurd hrev this
    | cons x r => rfl
  · show List.replicate (t - s.length) '0' ++ s.data ≠ []
    simp [hs]

theorem qToFixedString_last (d : ℕ) (x : ℚ) (hd : d ≠ 0) :
    ∃ c, (qToFixedString d x).data.reverse.head? = some c ∧ c ≠ '\n' ∧
      (qToFixedString d x).data ≠ [] := by
  rw [qToFixedString]
  simp only [if_neg hd]
  set n : ℕ := (⌊|x| * 10 ^ d + 1 / 2⌋).toNat with hn
  have hpad := padStartZeros_last d (natDec (n % 10 ^ d)) (natDec_ne_nil _)
  have hinner : ("." ++ padStartZeros d (natDec (n % 10 ^ d))).data.reverse.head? =
      some (digitChar (n % 10 ^ d % 10)) := by
    rw [append_last _ _ hpad.2, hpad.1, natDec_last]
  have houter : (natDec (n / 10 ^ d) ++
      ("." ++ padStartZeros d (natDec (n % 10 ^ d)))).data.reverse.head? =
      some (digitChar (n % 10 ^ d % 10)) := by
    rw [append_last _ _ (data_ne_nil_of_last hinner), hinner]
  refine ⟨digitChar (n % 10 ^ d % 10), ?_, digitChar_ne_lf _, ?_⟩
  · by_cases hx : x < 0
    · rw [if_pos hx, append_last _ _ (data_ne_nil_of_last houter), houter]
    · rw [if_neg hx, houter]
  · by_cases hx : x < 0
    · rw [if_pos hx]
      exact data_ne_nil_of_last (by rw [append_last _ _ (data_ne_nil_of_last houter), houter])
    · rw [if_neg hx]
      exact data_ne_nil_of_last houter

theorem joinSep_last (sep : String) :
    ∀ (l : List String) (s : String), l.reverse.head? = some s → s.data ≠ [] →
      (joinSep sep l).data.reverse.head? = s.data.reverse.head? := by
  intro l
  induction l with
  | nil => intro s hs; cases hs
  | cons x t ih =>
    intro s hs hd
    cases t with
    | nil =>
      simp only [List.reverse_cons, List.reverse_nil, List.nil_append, List.head?_cons,
        Option.some.injEq] at hs
      subst hs
      rfl
    | cons y t2 =>
      have hrev : (x :: y :: t2).reverse.head? = ((y :: t2).reverse).head? := by
        rw [List.reverse_cons, List.head?_append]
        have : (y :: t2).reverse ≠ [] := by simp
        cases hr : (y :: t2).reverse with
        | nil => exact absurd hr this
        | cons a b => rfl
      rw [hrev] at hs
      have hj := ih s hs hd
      have hex : ∃ c, s.data.reverse.head? = some c := by
        cases hsd : s.data.reverse with
        | nil => exact absurd (List.reverse_eq_nil_iff.mp hsd) hd
        | cons c r => exact ⟨c, rfl⟩
      obtain ⟨c, hc⟩ := hex
      have hjne : (joinSep sep (y :: t2)).data ≠ [] :=
        data_ne_nil_of_last (hc ▸ hj : (joinSep sep (y :: t2)).data.reverse.head? = some c)
      have hsepj : (sep ++ joinSep sep (y :: t2)).data ≠ [] := by
        rw [String.data_append]
        intro happ
        exact hjne (List.append_eq_nil.mp happ).2
      rw [joinSep, String.append_assoc, append_last x _ hsepj, append_last sep _ hjne, hj]

/-! ## Structure of the two builders over the shared batch enumeration -/

theorem numberFrom_append (l1 l2 : List α) :
    ∀ n, numberFrom n (l1 ++ l2) = numberFrom n l1 ++ numberFrom (n + l1.length) l2 := by
  induction l1 with
  | nil => intro n; simp [numberFrom]
  | cons a t ih =>
    intro n
    show (n, a) :: numberFrom (n + 1) (t ++ l2) =
      (n, a) :: (numberFrom (n + 1) t ++ numberFrom (n + (a :: t).length) l2)
    rw [ih (n + 1), show n + 1 + t.length = n + (a :: t).length by
      simp only [List.length_cons]
      omega]

theorem numberFrom_getElem? (l : List α) :
    ∀ n k, (numberFrom n l)[k]? = (l[k]?).map (fun b => (n + k, b)) := by
  induction l with
  | nil => intro n k; simp [numberFrom]
  | cons a t ih =>
    intro n k
    cases k with
    | zero => simp [numberFrom]
    | succ k2 =>
      simp only [numberFrom, List.getElem?_cons_succ, ih (n + 1) k2]
      cases t[k2]? with
      | none => rfl
      | some b => simp [Nat.add_assoc, Nat.add_comm 1 k2]

theorem numberFrom_map_flatMap (f : α → β) (g : ℕ × β → List γ) :
    ∀ (l : List α) (n : ℕ),
      (numberFrom n (l.map f)).flatMap g =
        (numberFrom n l).flatMap (fun p => g (p.1, f p.2)) := by
  intro l
  induction l with
  | nil => intro n; rfl
  | cons a t ih =>
    intro n
    simp only [List.map_cons, numberFrom, List.flatMap_cons, ih (n + 1)]

theorem iif_inner_fold (pn qc : String) :
    ∀ (bl : List (String × List Load)) (acc : List String × ℕ),
      bl.foldl (iifBatchStep pn qc) acc =
        (acc.1 ++ (numberFrom acc.2 bl).flatMap
          (fun nb => iifBatchLines pn qc nb.2.1 (docNumOf nb.1) nb.2.2),
         acc.2 + bl.length) := by
  intro bl
  induction bl with
  | nil => intro acc; simp [numberFrom]
  | cons b t ih =>
    intro acc
    rw [List.foldl_cons, ih]
    simp only [iifBatchStep, numberFrom, List.flatMap_cons, docNumOf, List.length_cons]
    rw [List.append_assoc]
    refine Prod.ext rfl ?_
    simp
    omega

theorem csv_inner_fold (clock : Clock) (pn qc : String) :
    ∀ (bl : List (String × List Load)) (acc : List String × ℕ),
      bl.foldl (csvBatchStep clock pn qc) acc =
        (acc.1 ++ (numberFrom acc.2 bl).flatMap
          (fun nb => nb.2.2.map (csvRow clock pn qc nb.2.1 (csvDueDate nb.2.1) (docNumOf nb.1))),
         acc.2 + bl.length) := by
  intro bl
  induction bl with
  | nil => intro acc; simp [numberFrom]
  | cons b t ih =>
    intro acc
    rw [List.foldl_cons, ih]
    simp only [csvBatchStep, numberFrom, List.flatMap_cons, docNumOf, List.length_cons]
    rw [List.append_assoc]
    refine Prod.ext rfl ?_
    simp
    omega

theorem iif_outer_fold (nowIso : String) :
    ∀ (groups : List (String × Group)) (acc : List String × ℕ),
      groups.foldl (iifGroupStep nowIso) acc =
        (acc.1 ++ (numberFrom acc.2 (exportBatches nowIso groups)).flatMap
          (fun nb => iifRenderB nb.2 nb.1),
         acc.2 + (exportBatches nowIso groups).length) := by
  intro groups
  induction groups with
  | nil => intro acc; simp [exportBatches, numberFrom]
  | cons pg t ih =>
    intro acc
    have hexp : exportBatches nowIso (pg :: t) =
        ((groupByDate (pg.2.loads.map (normalizeLoad nowIso))).map
          (fun dl : String × List Load => (jsToString pg.2.projectName, dl.1, dl.2))) ++
          exportBatches nowIso t := by
      simp [exportBatches]
    rw [List.foldl_cons,
      show iifGroupStep nowIso acc pg =
        (groupByDate (pg.2.loads.map (normalizeLoad nowIso))).foldl
          (iifBatchStep (jsToString pg.2.projectName)
            (qbClassIIF (jsToString pg.2.projectName))) acc from rfl,
      iif_inner_fold, ih, hexp, numberFrom_append, List.flatMap_append, List.length_map]
    rw [numberFrom_map_flatMap
      (fun dl : String × List Load => (jsToString pg.2.projectName, dl.1, dl.2))
      (fun nb => iifRenderB nb.2 nb.1)]
    dsimp only [iifRenderB]
    refine Prod.ext ?_ ?_
    · dsimp only
      rw [List.append_assoc]
    · dsimp only
      rw [List.length_append, List.length_map]
      omega

theorem csv_outer_fold (clock : Clock) :
    ∀ (groups : List (String × Group)) (acc : List String × ℕ),
      groups.foldl (csvGroupStep clock) acc =
        (acc.1 ++ (numberFrom acc.2 (exportBatches clock.nowIso groups)).flatMap
          (fun nb => csvRenderB clock nb.2 nb.1),
         acc.2 + (exportBatches clock.nowIso groups).length) := by
  intro groups
  induction groups with
  | nil => intro acc; simp [exportBatches, numberFrom]
  | cons pg t ih =>
    intro acc
    have hexp : exportBatches clock.nowIso (pg :: t) =
        ((groupByDate (pg.2.loads.map (normalizeLoad clock.nowIso))).map
          (fun dl : String × List Load => (jsToString pg.2.projectName, dl.1, dl.2))) ++
          exportBatches clock.nowIso t := by
      simp [exportBatches]
    rw [List.foldl_cons,
      show csvGroupStep clock acc pg =
        (groupByDate (pg.2.loads.map (normalizeLoad clock.nowIso))).foldl
          (csvBatchStep clock (jsToString pg.2.projectName)
            (qbClassCSV (jsToString pg.2.projectName))) acc from rfl,
      csv_inner_fold, ih, hexp, numberFrom_append, List.flatMap_append, List.length_map]
    rw [numberFrom_map_flatMap
      (fun dl : String × List Load => (jsToString pg.2.projectName, dl.1, dl.2))
      (fun nb => csvRenderB clock nb.2 nb.1)]
    dsimp only [csvRenderB]
    refine Prod.ext ?_ ?_
    · dsimp only
      rw [List.append_assoc]
    · dsimp only
      rw [List.length_append, List.length_map]
      omega

/-- The lines of the IIF document: headers, then the shared batch
enumeration numbered from 1000 and rendered. -/
theorem buildIIF_lines (clock : Clock) (groups : List (String × Group)) :
    buildIIF clock groups =
      joinSep "\r\n" (iifHeaderLines ++
        (numberFrom 1000 (exportBatches clock.nowIso groups)).flatMap
          (fun nb => iifRenderB nb.2 nb.1)) := by
  rw [buildIIF, iif_outer_fold]

/-- The rows of the CSV document: the header row, then the shared batch
enumeration numbered from 1000 and rendered. -/
theorem buildCSV_rows (clock : Clock) (groups : List (String × Group)) :
    buildCSV clock groups =
      joinSep "\r\n" (csvHeaderRow ::
        (numberFrom 1000 (exportBatches clock.nowIso groups)).flatMap
          (fun nb => csvRenderB clock nb.2 nb.1)) := by
  rw [buildCSV, csv_outer_fold]
  rfl

/-! ## C10 — shared invoice numbering across the two formats -/

/-- C10: the two serializers assign identical document numbers to
identical batches. Both documents are renderings of one shared batch
enumeration (`exportBatches`, the project-then-date traversal both
functions perform) numbered by one rule: the batch at position `k`
carries the counter value `1000 + k`, rendered as `DS-` plus the
number, in Format A and Format B alike. -/
theorem builders_share_docnums (clock : Clock) (groups : List (String × Group)) :
    buildIIF clock groups =
      joinSep "\r\n" (iifHeaderLines ++
        (numberFrom 1000 (exportBatches clock.nowIso groups)).flatMap
          (fun nb => iifRenderB nb.2 nb.1)) ∧
    buildCSV clock groups =
      joinSep "\r\n" (csvHeaderRow ::
        (numberFrom 1000 (exportBatches clock.nowIso groups)).flatMap
          (fun nb => csvRenderB clock nb.2 nb.1)) ∧
    ∀ k : ℕ, (numberFrom 1000 (exportBatches clock.nowIso groups))[k]? =
      ((exportBatches clock.nowIso groups)[k]?).map (fun b => (1000 + k, b)) :=
  ⟨buildIIF_lines clock groups, buildCSV_rows clock groups,
   fun k => numberFrom_getElem? _ 1000 k⟩

/-! ## C4 — CRLF separation and the absent final terminator -/

theorem mem_of_reverse_head? {l : List α} {s : α} (h : l.reverse.head? = some s) : s ∈ l := by
  cases hrev : l.reverse with
  | nil => rw [hrev] at h; cases h
  | cons a t =>
    rw [hrev] at h
    cases h
    have : s ∈ l.reverse := by rw [hrev]; exact List.mem_cons_self _ _
    exact List.mem_reverse.mp this

theorem exists_reverse_head?_of_ne_nil {l : List α} (h : l ≠ []) :
    ∃ s, l.reverse.head? = some s := by
  cases hrev : l.reverse with
  | nil => exact absurd (List.reverse_eq_nil_iff.mp hrev) h
  | cons a t => exact ⟨a, rfl⟩

theorem endsWithCRLF_false_of {s : String} (h : s.data.reverse.head? ≠ some '\n') :
    endsWithCRLF s = false := by
  rw [endsWithCRLF]
  split
  · rename_i heq
    exact absurd (by rw [heq]; rfl) h
  · rfl

theorem iifTrnsLine_last (pn qc d doc : String) (dl : List Load) :
    (iifTrnsLine pn qc d doc dl).data.reverse.head? = some '0' := by
  rw [iifTrnsLine, joinSep_last "\t" _ cfgTerms (by simp) (by decide)]
  decide

theorem iifSplLine_last (pn qc d doc : String) (load : Load) :
    (iifSplLine pn qc d doc load).data.reverse.head? = some 'n' := by
  rw [iifSplLine,
    joinSep_last "\t" _ "LEED Compliance Documentation" (by simp) (by decide)]
  decide

theorem csvRow_last (clock : Clock) (pn qc d dd doc : String) (load : Load) :
    ∃ c, (csvRow clock pn qc d dd doc load).data.reverse.head? = some c ∧ c ≠ '\n' := by
  obtain ⟨c, hc, hcne, hne⟩ :=
    qToFixedString_last 4 (numOrZero load.carbonSaved) (by decide)
  refine ⟨c, ?_, hcne⟩
  rw [csvRow, joinSep_last "," _ (qToFixedString 4 (numOrZero load.carbonSaved)) (by simp) hne]
  exact hc

theorem iif_lines_good (clock : Clock) (groups : List (String × Group)) :
    ∀ s ∈ iifHeaderLines ++
        (numberFrom 1000 (exportBatches clock.nowIso groups)).flatMap
          (fun nb => iifRenderB nb.2 nb.1),
      s.data ≠ [] ∧ s.data.reverse.head? ≠ some '\n' := by
  intro s hs
  rcases List.mem_append.mp hs with hh | hf
  · simp only [iifHeaderLines, List.mem_cons, List.not_mem_nil, or_false] at hh
    rcases hh with rfl | rfl | rfl
    · exact ⟨by decide, by decide⟩
    · exact ⟨by decide, by decide⟩
    · exact ⟨by decide, by decide⟩
  · obtain ⟨nb, _, hsnb⟩ := List.mem_flatMap.mp hf
    rw [iifRenderB, iifBatchLines] at hsnb
    rcases List.mem_cons.mp hsnb with rfl | hs2
    · refine ⟨data_ne_nil_of_last (iifTrnsLine_last _ _ _ _ _), ?_⟩
      rw [iifTrnsLine_last]
      decide
    · rcases List.mem_append.mp hs2 with hspl | hend
      · obtain ⟨load, _, rfl⟩ := List.mem_map.mp hspl
        refine ⟨data_ne_nil_of_last (iifSplLine_last _ _ _ _ _), ?_⟩
        rw [iifSplLine_last]
        decide
      · simp only [List.mem_cons, List.not_mem_nil, or_false] at hend
        subst hend
        exact ⟨by decide, by decide⟩

theorem csv_rows_good (clock : Clock) (groups : List (String × Group)) :
    ∀ s ∈ csvHeaderRow ::
        (numberFrom 1000 (exportBatches clock.nowIso groups)).flatMap
          (fun nb => csvRenderB clock nb.2 nb.1),
      s.data ≠ [] ∧ s.data.reverse.head? ≠ some '\n' := by
  intro s hs
  rcases List.mem_cons.mp hs with rfl | hf
  · exact ⟨by decide, by decide⟩
  · obtain ⟨nb, _, hsnb⟩ := List.mem_flatMap.mp hf
    rw [csvRenderB] at hsnb
    obtain ⟨load, _, rfl⟩ := List.mem_map.mp hsnb
    obtain ⟨c, hc, hcne⟩ := csvRow_last clock _ _ _ _ _ load
    exact ⟨data_ne_nil_of_last hc, by rw [hc]; exact fun h => hcne (Option.some.inj h)⟩

theorem buildIIF_not_crlf_terminated (clock : Clock) (groups : List (String × Group)) :
    endsWithCRLF (buildIIF clock groups) = false := by
  rw [buildIIF_lines]
  have hLne : iifHeaderLines ++
      (numberFrom 1000 (exportBatches clock.nowIso groups)).flatMap
        (fun nb => iifRenderB nb.2 nb.1) ≠ [] := by
    simp [iifHeaderLines]
  obtain ⟨s, hs⟩ := exists_reverse_head?_of_ne_nil hLne
  obtain ⟨hne, hlast⟩ := iif_lines_good clock groups s (mem_of_reverse_head? hs)
  refine endsWithCRLF_false_of ?_
  rw [joinSep_last "\r\n" _ s hs hne]
  exact hlast

theorem buildCSV_not_crlf_terminated (clock : Clock) (groups : List (String × Group)) :
    endsWithCRLF (buildCSV clock groups) = false := by
  rw [buildCSV_rows]
  have hLne : csvHeaderRow ::
      (numberFrom 1000 (exportBatches clock.nowIso groups)).flatMap
        (fun nb => csvRenderB clock nb.2 nb.1) ≠ [] := by
    simp
  obtain ⟨s, hs⟩ := exists_reverse_head?_of_ne_nil hLne
  obtain ⟨hne, hlast⟩ := csv_rows_good clock groups s (mem_of_reverse_head? hs)
  refine endsWithCRLF_false_of ?_
  rw [joinSep_last "\r\n" _ s hs hne]
  exact hlast

/-- Counterexample to C4: a concrete one-record export in both formats.
Neither document ends with the CRLF sequence, so CRLF is not a
final-record terminator. -/
theorem crlf_terminator_counterexample :
    endsWithCRLF (buildIIF clock0 (groupByProject [cRec "a"])) = false ∧
    endsWithCRLF (buildCSV clock0 (groupByProject [cRec "a"])) = false :=
  ⟨buildIIF_not_crlf_terminated clock0 (groupByProject [cRec "a"]),
   buildCSV_not_crlf_terminated clock0 (groupByProject [cRec "a"])⟩

/-- C4 amended: both builders join their records with the two-character
CRLF sequence as separator (`lines.join` in the source), but the
separator is not emitted after the final record: no document produced
by either builder ever ends with CRLF. -/
theorem documents_not_crlf_terminated (clock : Clock) (groups : List (String × Group)) :
    endsWithCRLF (buildIIF clock groups) = false ∧
    endsWithCRLF (buildCSV clock groups) = false :=
  ⟨buildIIF_not_crlf_terminated clock groups, buildCSV_not_crlf_terminated clock groups⟩

end DivertScanQB
